import Mathlib

/-!
Verification of the aggregation core of `Final_Project.py` (a Streamlit
dashboard over NASA meteorite-landing records).

The data model is a shallow embedding of a pandas data frame as loaded by
`getData` from `Meteorite_Landings.csv`: a list of rows with the columns
`id`, `name`, `recclass`, `mass (g)`, `reclat`, `reclong`, `year`.
Missing cells (NaN after `pd.read_csv`) are modelled as `Option`.
`sortName` assigns a new column `firstLetter` to the data frame it is given;
that column is modelled as an extra optional field, `none` on the freshly
loaded table.
-/

structure MeteoriteRow where
  id : Nat
  name : Option String
  recclass : Option String
  mass : Option Rat
  reclat : Option Rat
  reclong : Option Rat
  year : Option Int
  /-- The derived column created by `sortName`; absent (`none`) on the
  freshly loaded table. -/
  firstLetter : Option Char := none
  deriving Repr, DecidableEq

/-- A `MeteoriteTable` is the ordered collection of rows of the data frame. -/
abbrev MeteoriteTable := List MeteoriteRow

/-! ## getMeteorsPerYear (spec name: countsByYear)

```python
yearsdf = meteordf.sort_values(by = ["year"])
yearsCountdf = yearsdf.groupby("year")['id'].count()
yearsOfInterest = yearsCountdf.loc[years]
```

`groupby("year")` drops rows whose `year` is NaN and sorts the group keys
ascending (so the preceding `sort_values` is immaterial); `['id'].count()`
counts non-null `id` cells per group (`id` is never null, so it is the group
size).  `.loc[years]` on a list of labels returns the entries in the order of
the list and raises `KeyError` if any label is absent; we model the raised
error as `none`. -/

/-- Number of rows of the table whose (non-missing) year equals `y`. -/
def countYear (T : MeteoriteTable) (y : Int) : Nat :=
  (T.filter (fun r => r.year = some y)).length

/-- The distinct non-missing years of the table, in first-occurrence order. -/
def distinctYears (T : MeteoriteTable) : List Int :=
  (T.filterMap (fun r => r.year)).dedup

/-- `yearsdf.groupby("year")['id'].count()`: association list from each
distinct year (ascending) to the count of non-null ids in its group. -/
def yearsCountdf (T : MeteoriteTable) : List (Int × Nat) :=
  (List.insertionSort (· ≤ ·) (distinctYears T)).map (fun y => (y, countYear T y))

/-- Label-list indexing `series.loc[labels]`: the entries for the labels, in
the order of the label list; `none` (KeyError) if any label is absent. -/
def locList (s : List (Int × Nat)) : List Int → Option (List (Int × Nat))
  | [] => some []
  | y :: ys =>
    match s.lookup y with
    | none => none
    | some c => (locList s ys).map (fun rest => (y, c) :: rest)

/-- The function `getMeteorsPerYear(meteordf, years)`. -/
def getMeteorsPerYear (T : MeteoriteTable) (years : List Int) :
    Option (List (Int × Nat)) :=
  locList (yearsCountdf T) years

/-! ## sortClassAndFindValues (spec name: summarizeClass)

```python
grouped = meteordf.dropna().groupby('recclass')
means = grouped.mean(numeric_only=True)
count = grouped["name"].count().loc[recclass]
maxgroups = grouped["mass (g)"].max()
mingroups = grouped["mass (g)"].min()
meanweightclass = means["mass (g)"].apply(pd.to_numeric).loc[recclass]
maxweight = maxgroups.apply(pd.to_numeric).loc[recclass]
minweight = mingroups.apply(pd.to_numeric).loc[recclass]
aveweight = pd.Series.mean(meteordf["mass (g)"])
avelat = pd.Series.mean(meteordf["reclat"])
avelong = pd.Series.mean(meteordf["reclong"])
```

`dropna()` (no arguments) drops every row with a NaN in ANY column of the
loaded frame — `name`, `recclass`, `mass (g)`, `reclat`, `reclong` and also
`year`.  The `.loc[recclass]` lookups raise `KeyError` when the class has no
row left after `dropna`, modelled as `none`.  `pd.Series.mean` skips NaN
cells and yields NaN on an all-NaN column, modelled as `none`. -/

/-- The `dropna()` row predicate on the loaded frame: no missing cell in any
column (`id` is always present). -/
def keepRow (r : MeteoriteRow) : Bool :=
  r.name.isSome && r.recclass.isSome && r.mass.isSome &&
    r.reclat.isSome && r.reclong.isSome && r.year.isSome

/-- The expression `meteordf.dropna()`. -/
def dropna (T : MeteoriteTable) : MeteoriteTable :=
  T.filter keepRow

/-- The rows of `meteordf.dropna()` in the `groupby('recclass')` group of
class `c` (row order preserved, as pandas groups do). -/
def classRows (T : MeteoriteTable) (c : String) : MeteoriteTable :=
  (dropna T).filter (fun r => r.recclass = some c)

/-- Column mean `pd.Series.mean`: mean of the non-missing cells of a
column, `none` (NaN) when every cell is missing. -/
def colMean (xs : List Rat) : Option Rat :=
  match xs with
  | [] => none
  | _ => some (xs.sum / (xs.length : Rat))

/-- Maximum of the masses of a group, `grouped["mass (g)"].max()` at one
key.  The `[]` branch is unreachable for a group produced by
`dropna().groupby`: every surviving row has a mass. -/
def massMax : List Rat → Rat
  | [] => 0
  | m :: ms => ms.foldl max m

/-- Minimum of the masses of a group, `grouped["mass (g)"].min()` at one
key.  The `[]` branch is unreachable, as for `massMax`. -/
def massMin : List Rat → Rat
  | [] => 0
  | m :: ms => ms.foldl min m

/-- Result record of `sortClassAndFindValues` (the returned tuple
`aveweight, avelat, avelong, meanweightclass, count, maxweight, minweight`). -/
structure ClassSummary where
  aveweight : Option Rat
  avelat : Option Rat
  avelong : Option Rat
  meanweightclass : Rat
  count : Nat
  maxweight : Rat
  minweight : Rat
  deriving Repr, DecidableEq

/-- The function `sortClassAndFindValues(meteordf, recclass)`; `none`
models the `KeyError` raised by the `.loc[recclass]` lookups when the class
is not a key of `dropna().groupby('recclass')`, i.e. has no row left after
`dropna()`. -/
def sortClassAndFindValues (T : MeteoriteTable) (recclass : String) :
    Option ClassSummary :=
  let grouped := classRows T recclass
  if grouped.isEmpty then none
  else
    let ms := grouped.filterMap (fun r => r.mass)
    some {
      aveweight := colMean (T.filterMap (fun r => r.mass))
      avelat := colMean (T.filterMap (fun r => r.reclat))
      avelong := colMean (T.filterMap (fun r => r.reclong))
      meanweightclass := ms.sum / (ms.length : Rat)
      count := (grouped.filterMap (fun r => r.name)).length
      maxweight := massMax ms
      minweight := massMin ms }

/-! ## sortName (spec name: buildNameIndex)

```python
meteordf["firstLetter"] = meteordf["name"].str[0].str.upper()
grouped = meteordf.groupby('firstLetter')
namesdict = {key: value['name'].tolist() for key, value in grouped}
```

The first line MUTATES the data frame passed in: it assigns a new column.
`.str[0]` yields NaN for a NaN name and also for an empty-string name, and
`.str.upper()` keeps NaN; `groupby('firstLetter')` drops the NaN keys and
iterates groups in ascending key order, each group keeping row order. -/

/-- One cell of `meteordf["name"].str[0].str.upper()`: `none` (NaN) for a
missing and also for an empty-string name. -/
def firstLetterOf (name : Option String) : Option Char :=
  match name with
  | none => none
  | some s =>
    match s.data with
    | [] => none
    | c :: _ => some c.toUpper

/-- The data frame after `meteordf["firstLetter"] = ...`: every row's
`firstLetter` column is (re)assigned. -/
def sortNameTable (T : MeteoriteTable) : MeteoriteTable :=
  T.map (fun r => { r with firstLetter := firstLetterOf r.name })

/-- The distinct letter keys of `groupby('firstLetter')`, ascending. -/
def letterKeys (T : MeteoriteTable) : List Char :=
  List.insertionSort (· ≤ ·) ((T.filterMap (fun r => r.firstLetter)).dedup)

/-- The function `sortName(meteordf)`: the mutated data frame together with
the dictionary `{letter: list of names}` (entries in `groupby` key order,
each group keeping the frame's row order). -/
def sortName (T : MeteoriteTable) :
    MeteoriteTable × List (Char × List String) :=
  let T' := sortNameTable T
  (T', (letterKeys T').map (fun k =>
    (k, (T'.filter (fun r => r.firstLetter = some k)).filterMap
      (fun r => r.name))))

/-! ## State-passing forms

To reason about mutation of the shared data frame, each aggregation is also
given in a state-passing form returning the data frame as it is after the
call.  `getMeteorsPerYear` performs no in-place operation (`sort_values`,
`groupby` and `.loc` all return new objects), and neither does
`sortClassAndFindValues` (`dropna()` returns a copy); `sortName` assigns the
`firstLetter` column to the frame it received. -/

/-- State-passing form of `getMeteorsPerYear`: the frame is returned as
received. -/
def getMeteorsPerYearS (T : MeteoriteTable) (years : List Int) :
    MeteoriteTable × Option (List (Int × Nat)) :=
  (T, getMeteorsPerYear T years)

/-- State-passing form of `sortClassAndFindValues`: the frame is returned
as received. -/
def sortClassAndFindValuesS (T : MeteoriteTable) (recclass : String) :
    MeteoriteTable × Option ClassSummary :=
  (T, sortClassAndFindValues T recclass)

/-! ## The spec-side drop-missing filter (for comparison in C1)

The specification describes the class-summary filter as dropping exactly the
rows with a missing value among name/classification/mass/lat/long — rows
missing only the year are said to be kept.  This definition follows the
spec's words, to be compared with `dropna` above. -/

/-- Modelled from the spec: the drop-missing pass of §4.3, which keeps a row
missing only its year. -/
def specKeepRow (r : MeteoriteRow) : Bool :=
  r.name.isSome && r.recclass.isSome && r.mass.isSome &&
    r.reclat.isSome && r.reclong.isSome

/-- Modelled from the spec: the per-class row set of §4.3. -/
def specClassRows (T : MeteoriteTable) (c : String) : MeteoriteTable :=
  (T.filter specKeepRow).filter (fun r => r.recclass = some c)

/-! ## The scenario table of §8 -/

def rowAbee : MeteoriteRow :=
  { id := 1, name := some "Abee", recclass := some "L6",
    mass := some 107000, reclat := some (271/5), reclong := some (-113),
    year := some 1952 }

def rowOurique : MeteoriteRow :=
  { id := 2, name := some "Ourique", recclass := some "L5",
    mass := none, reclat := some (188/5), reclong := some (-41/5),
    year := some 1927 }

def scenarioT : MeteoriteTable := [rowAbee, rowOurique]

/-- A row complete except for its discovery year. -/
def rowNoYear : MeteoriteRow :=
  { id := 3, name := some "Abee", recclass := some "L6",
    mass := some 107000, reclat := some (271/5), reclong := some (-113),
    year := none }

/-- The summary returned for class `"L6"` on the scenario table. -/
def scenarioSummaryL6 : ClassSummary :=
  { aveweight := some 107000, avelat := some (459/10),
    avelong := some (-303/5), meanweightclass := 107000, count := 1,
    maxweight := 107000, minweight := 107000 }

/-- A complete row of a second classification, used to compare the overall
means across two different requested classes. -/
def rowBruno : MeteoriteRow :=
  { id := 4, name := some "Bruno", recclass := some "H5",
    mass := some 1500, reclat := some (1/2), reclong := some (3/2),
    year := some 1949 }

/-- A table holding one complete row each of classes `"L6"` and `"H5"`. -/
def twoClassT : MeteoriteTable := [rowAbee, rowBruno]

/-- The summary returned for class `"L6"` on `twoClassT`. -/
def twoClassL6 : ClassSummary :=
  { aveweight := some 54250, avelat := some (547/20),
    avelong := some (-223/4), meanweightclass := 107000, count := 1,
    maxweight := 107000, minweight := 107000 }

/-- The summary returned for class `"H5"` on `twoClassT`. -/
def twoClassH5 : ClassSummary :=
  { aveweight := some 54250, avelat := some (547/20),
    avelong := some (-223/4), meanweightclass := 1500, count := 1,
    maxweight := 1500, minweight := 1500 }

/-! ## Lemmas about the year counts -/

theorem countYear_pos_iff (T : MeteoriteTable) (y : Int) :
    0 < countYear T y ↔ ∃ r ∈ T, r.year = some y := by
  constructor
  · intro h
    obtain ⟨r, hr⟩ := List.exists_mem_of_length_pos h
    obtain ⟨hrT, hry⟩ := List.mem_filter.mp hr
    exact ⟨r, hrT, of_decide_eq_true hry⟩
  · rintro ⟨r, hrT, hry⟩
    have hmem : r ∈ T.filter (fun r => r.year = some y) :=
      List.mem_filter.mpr ⟨hrT, decide_eq_true hry⟩
    exact List.length_pos.mpr (List.ne_nil_of_mem hmem)

theorem mem_sortKeys_iff (T : MeteoriteTable) (y : Int) :
    y ∈ List.insertionSort (· ≤ ·) (distinctYears T) ↔ 0 < countYear T y := by
  rw [(List.perm_insertionSort _ _).mem_iff, distinctYears, List.mem_dedup,
    List.mem_filterMap, countYear_pos_iff]

theorem lookup_map_key (f : Int → Nat) :
    ∀ (l : List Int) (y : Int), y ∈ l →
      (l.map (fun k => (k, f k))).lookup y = some (f y) := by
  intro l
  induction l with
  | nil => intro y hy; cases hy
  | cons a l ih =>
    intro y hy
    by_cases h : y = a
    · subst h
      simp [List.lookup]
    · rcases List.mem_cons.mp hy with h' | h'
      · exact absurd h' h
      · simpa [List.lookup, beq_eq_false_iff_ne.mpr h] using ih y h'

theorem lookup_map_key_none (f : Int → Nat) :
    ∀ (l : List Int) (y : Int), y ∉ l →
      (l.map (fun k => (k, f k))).lookup y = none := by
  intro l
  induction l with
  | nil => intro y _; rfl
  | cons a l ih =>
    intro y hy
    have h1 : y ≠ a := fun h => hy (h ▸ List.mem_cons_self a l)
    have h2 : y ∉ l := fun h => hy (List.mem_cons_of_mem a h)
    simpa [List.lookup, beq_eq_false_iff_ne.mpr h1] using ih y h2

theorem lookup_yearsCountdf_pos {T : MeteoriteTable} {y : Int}
    (h : 0 < countYear T y) :
    (yearsCountdf T).lookup y = some (countYear T y) :=
  lookup_map_key _ _ _ ((mem_sortKeys_iff T y).mpr h)

theorem lookup_yearsCountdf_zero {T : MeteoriteTable} {y : Int}
    (h : countYear T y = 0) :
    (yearsCountdf T).lookup y = none :=
  lookup_map_key_none _ _ _ (fun hmem =>
    Nat.lt_irrefl 0 (h ▸ (mem_sortKeys_iff T y).mp hmem))

theorem getMeteorsPerYear_eq (T : MeteoriteTable) (years : List Int)
    (h : ∀ y ∈ years, 0 < countYear T y) :
    getMeteorsPerYear T years
      = some (years.map (fun y => (y, countYear T y))) := by
  induction years with
  | nil => rfl
  | cons a ys ih =>
    have ha : (yearsCountdf T).lookup a
        = some (countYear T a) :=
      lookup_yearsCountdf_pos (h a (List.mem_cons_self a ys))
    have hys := ih (fun y hy => h y (List.mem_cons_of_mem a hy))
    simp only [getMeteorsPerYear] at hys
    show locList (yearsCountdf T) (a :: ys) = _
    simp only [locList, ha, hys]
    rfl

theorem getMeteorsPerYear_none_iff (T : MeteoriteTable) (years : List Int) :
    getMeteorsPerYear T years = none ↔ ∃ y ∈ years, countYear T y = 0 := by
  induction years with
  | nil =>
    simp [getMeteorsPerYear, locList]
  | cons a ys ih =>
    by_cases h : countYear T a = 0
    · have hnone : getMeteorsPerYear T (a :: ys) = none := by
        show locList (yearsCountdf T) (a :: ys) = none
        simp only [locList, lookup_yearsCountdf_zero h]
      exact iff_of_true hnone ⟨a, List.mem_cons_self a ys, h⟩
    · have ha : (yearsCountdf T).lookup a = some (countYear T a) :=
        lookup_yearsCountdf_pos (Nat.pos_of_ne_zero h)
      show locList (yearsCountdf T) (a :: ys) = none ↔ _
      simp only [locList, ha]
      rw [Option.map_eq_none']
      rw [show locList (yearsCountdf T) ys = getMeteorsPerYear T ys from rfl, ih]
      constructor
      · rintro ⟨y, hy, hy0⟩
        exact ⟨y, List.mem_cons_of_mem a hy, hy0⟩
      · rintro ⟨y, hy, hy0⟩
        rcases List.mem_cons.mp hy with h' | h'
        · exact absurd (h' ▸ hy0) h
        · exact ⟨y, h', hy0⟩

theorem countYear_cons (r : MeteoriteRow) (T : MeteoriteTable) (y : Int) :
    countYear (r :: T) y
      = (if r.year = some y then 1 else 0) + countYear T y := by
  unfold countYear
  rw [List.filter_cons]
  by_cases h : r.year = some y
  · simp [h, Nat.add_comm]
  · simp [h]

theorem indicator_sum_le (r : MeteoriteRow) :
    ∀ (ys : List Int), ys.Nodup →
      (ys.map (fun y => if r.year = some y then 1 else 0)).sum ≤ 1 := by
  intro ys
  induction ys with
  | nil => intro _; simp
  | cons a ys ih =>
    intro h
    rw [List.nodup_cons] at h
    by_cases ha : r.year = some a
    · have hzero :
          (ys.map (fun y => if r.year = some y then 1 else 0)).sum = 0 := by
        apply List.sum_eq_zero
        intro x hx
        obtain ⟨y, hy, hxy⟩ := List.mem_map.mp hx
        by_cases hry : r.year = some y
        · have : y = a := Option.some_injective _ (hry ▸ ha ▸ rfl)
          exact absurd (this ▸ hy) h.1
        · simpa [hry] using hxy.symm
      rw [List.map_cons, List.sum_cons, hzero, if_pos ha]
    · rw [List.map_cons, List.sum_cons, if_neg ha, Nat.zero_add]
      exact ih h.2

theorem sum_countYear_le (ys : List Int) (hys : ys.Nodup) :
    ∀ (T : MeteoriteTable),
      (ys.map (fun y => countYear T y)).sum ≤ T.length := by
  intro T
  induction T with
  | nil =>
    have : ∀ x ∈ ys.map (fun y => countYear ([] : MeteoriteTable) y), x = 0 := by
      intro x hx
      obtain ⟨y, _, hxy⟩ := List.mem_map.mp hx
      simpa [countYear] using hxy.symm
    simp [List.sum_eq_zero this]
  | cons r T ih =>
    have hsplit :
        (ys.map (fun y => countYear (r :: T) y)).sum
          = (ys.map (fun y => if r.year = some y then 1 else 0)).sum
            + (ys.map (fun y => countYear T y)).sum := by
      rw [← List.sum_map_add]
      congr 1
      apply List.map_congr_left
      intro y _
      exact countYear_cons r T y
    rw [hsplit]
    calc (ys.map (fun y => if r.year = some y then 1 else 0)).sum
            + (ys.map (fun y => countYear T y)).sum
        ≤ 1 + T.length :=
          Nat.add_le_add (indicator_sum_le r ys hys) ih
      _ = (r :: T).length := by simp [Nat.add_comm]

/-- C2, counterexample: on the scenario table, requesting the years in the
order `[1952, 1927]` makes `getMeteorsPerYear` return the entries in that
requested order — not in ascending year order as the claim states. -/
theorem getMeteorsPerYear_not_ascending :
    (getMeteorsPerYear scenarioT [1952, 1927]).map (fun l => l.map Prod.fst)
        = some [(1952 : Int), 1927]
      ∧ ¬ List.Sorted (· ≤ ·) [(1952 : Int), 1927] :=
  ⟨by decide, by decide⟩

/-- C2, amended: for every table and every list of requested years each of
which occurs as a discovery year of some record, `getMeteorsPerYear`
returns the mapping from each requested year to the number of records with
that year, with the entries in the order the years were requested (the
`.loc[years]` lookup keeps the request order, not ascending year order). -/
theorem getMeteorsPerYear_requested_order (T : MeteoriteTable)
    (years : List Int) (h : ∀ y ∈ years, ∃ r ∈ T, r.year = some y) :
    getMeteorsPerYear T years
      = some (years.map (fun y => (y, countYear T y))) :=
  getMeteorsPerYear_eq T years
    (fun y hy => (countYear_pos_iff T y).mpr (h y hy))

/-- C2, witness: the amended theorem applied to the scenario table at the
request `[1952, 1927]`, whose years both occur in the table. -/
theorem getMeteorsPerYear_requested_order_witness :
    getMeteorsPerYear scenarioT [1952, 1927] = some [(1952, 1), (1927, 1)] := by
  rw [getMeteorsPerYear_requested_order scenarioT [1952, 1927] (by decide)]
  decide

/-- C4: `getMeteorsPerYear` fails (the `.loc` lookup raises, modelled as
`none`) iff some requested year has zero matching records in the table; on
the scenario table, requesting `[1952]` yields `{1952: 1}` and requesting
`[1999]` fails. -/
theorem getMeteorsPerYear_error_iff :
    (∀ (T : MeteoriteTable) (years : List Int),
        getMeteorsPerYear T years = none ↔ ∃ y ∈ years, countYear T y = 0)
      ∧ getMeteorsPerYear scenarioT [1952] = some [(1952, 1)]
      ∧ getMeteorsPerYear scenarioT [1999] = none :=
  ⟨getMeteorsPerYear_none_iff, by decide, by decide⟩

/-- C9: for a duplicate-free request of years that all occur in the table,
`getMeteorsPerYear` succeeds, every returned count is non-negative, and the
counts sum to at most the number of rows of the table. -/
theorem getMeteorsPerYear_counts_bound (T : MeteoriteTable)
    (years : List Int) (h1 : years.Nodup)
    (h2 : ∀ y ∈ years, ∃ r ∈ T, r.year = some y) :
    ∃ l, getMeteorsPerYear T years = some l
      ∧ (∀ p ∈ l, 0 ≤ p.2) ∧ (l.map Prod.snd).sum ≤ T.length := by
  refine ⟨years.map (fun y => (y, countYear T y)),
    getMeteorsPerYear_eq T years
      (fun y hy => (countYear_pos_iff T y).mpr (h2 y hy)), ?_, ?_⟩
  · intro p _
    exact Nat.zero_le _
  · rw [List.map_map]
    exact sum_countYear_le years h1 T

/-- C9, witness: the bound applied to the scenario table at the
duplicate-free request `[1952, 1927]`. -/
theorem getMeteorsPerYear_counts_bound_witness :
    [(1952 : Int), 1927].Nodup
      ∧ ∃ l, getMeteorsPerYear scenarioT [1952, 1927] = some l
        ∧ (∀ p ∈ l, 0 ≤ p.2) ∧ (l.map Prod.snd).sum ≤ scenarioT.length :=
  ⟨by decide,
    getMeteorsPerYear_counts_bound scenarioT [1952, 1927]
      (by decide) (by decide)⟩

/-! ## Lemmas about the classification summary -/

theorem keepRow_iff (r : MeteoriteRow) :
    keepRow r = true
      ↔ r.name.isSome ∧ r.recclass.isSome ∧ r.mass.isSome
        ∧ r.reclat.isSome ∧ r.reclong.isSome ∧ r.year.isSome := by
  simp [keepRow, Bool.and_assoc]

theorem mem_classRows {T : MeteoriteTable} {c : String} {r : MeteoriteRow} :
    r ∈ classRows T c ↔ r ∈ T ∧ keepRow r = true ∧ r.recclass = some c := by
  constructor
  · intro hr
    obtain ⟨h1, h2⟩ := List.mem_filter.mp hr
    obtain ⟨h3, h4⟩ := List.mem_filter.mp h1
    exact ⟨h3, h4, of_decide_eq_true h2⟩
  · rintro ⟨h1, h2, h3⟩
    exact List.mem_filter.mpr
      ⟨List.mem_filter.mpr ⟨h1, h2⟩, decide_eq_true h3⟩

theorem length_filterMap_of_isSome {α β : Type} (f : α → Option β) :
    ∀ (l : List α), (∀ a ∈ l, (f a).isSome) →
      (l.filterMap f).length = l.length := by
  intro l
  induction l with
  | nil => intro _; rfl
  | cons a l ih =>
    intro h
    obtain ⟨b, hb⟩ := Option.isSome_iff_exists.mp (h a (List.mem_cons_self a l))
    rw [List.filterMap_cons, hb, List.length_cons,
      ih (fun x hx => h x (List.mem_cons_of_mem a hx))]
    rfl

theorem classMasses_ne_nil {T : MeteoriteTable} {c : String}
    (h : ¬ (classRows T c).isEmpty = true) :
    (classRows T c).filterMap (fun r => r.mass) ≠ [] := by
  intro hnil
  rw [List.filterMap_eq_nil_iff] at hnil
  have hne : classRows T c ≠ [] := fun he => h (List.isEmpty_iff.mpr he)
  obtain ⟨r, hr⟩ := List.exists_mem_of_ne_nil _ hne
  have hkeep := (mem_classRows.mp hr).2.1
  have hmass : r.mass.isSome := ((keepRow_iff r).mp hkeep).2.2.1
  rw [hnil r hr] at hmass
  cases hmass

theorem classMasses_length {T : MeteoriteTable} {c : String} :
    ((classRows T c).filterMap (fun r => r.mass)).length
      = (classRows T c).length :=
  length_filterMap_of_isSome _ _
    (fun r hr => ((keepRow_iff r).mp (mem_classRows.mp hr).2.1).2.2.1)

theorem classNames_length {T : MeteoriteTable} {c : String} :
    ((classRows T c).filterMap (fun r => r.name)).length
      = (classRows T c).length :=
  length_filterMap_of_isSome _ _
    (fun r hr => ((keepRow_iff r).mp (mem_classRows.mp hr).2.1).1)

theorem sortClassAndFindValues_some_eq {T : MeteoriteTable} {c : String}
    {s : ClassSummary} (h : sortClassAndFindValues T c = some s) :
    ¬ (classRows T c).isEmpty = true
      ∧ s = { aveweight := colMean (T.filterMap (fun r => r.mass))
              avelat := colMean (T.filterMap (fun r => r.reclat))
              avelong := colMean (T.filterMap (fun r => r.reclong))
              meanweightclass :=
                ((classRows T c).filterMap (fun r => r.mass)).sum
                  / (((classRows T c).filterMap (fun r => r.mass)).length : Rat)
              count := ((classRows T c).filterMap (fun r => r.name)).length
              maxweight := massMax ((classRows T c).filterMap (fun r => r.mass))
              minweight :=
                massMin ((classRows T c).filterMap (fun r => r.mass)) } := by
  by_cases hE : (classRows T c).isEmpty = true
  · rw [sortClassAndFindValues] at h
    simp only [hE, if_true] at h
    cases h
  · refine ⟨hE, ?_⟩
    rw [sortClassAndFindValues] at h
    simp only [hE, if_false] at h
    exact (Option.some_injective _ h).symm

theorem le_foldl_max (ms : List Rat) :
    ∀ (m x : Rat), x ∈ m :: ms → x ≤ ms.foldl max m := by
  induction ms with
  | nil =>
    intro m x hx
    rw [List.mem_singleton.mp hx]
    exact le_refl m
  | cons b bs ih =>
    intro m x hx
    rw [List.foldl_cons]
    rcases List.mem_cons.mp hx with h | h
    · subst h
      exact le_trans (le_max_left x b)
        (ih (max x b) (max x b) (List.mem_cons_self _ _))
    · rcases List.mem_cons.mp h with h' | h'
      · subst h'
        exact le_trans (le_max_right m x)
          (ih (max m x) (max m x) (List.mem_cons_self _ _))
      · exact ih (max m b) x (List.mem_cons_of_mem _ h')

theorem foldl_min_le (ms : List Rat) :
    ∀ (m x : Rat), x ∈ m :: ms → ms.foldl min m ≤ x := by
  induction ms with
  | nil =>
    intro m x hx
    rw [List.mem_singleton.mp hx]
    exact le_refl m
  | cons b bs ih =>
    intro m x hx
    rw [List.foldl_cons]
    rcases List.mem_cons.mp hx with h | h
    · subst h
      exact le_trans
        (ih (min x b) (min x b) (List.mem_cons_self _ _)) (min_le_left x b)
    · rcases List.mem_cons.mp h with h' | h'
      · subst h'
        exact le_trans
          (ih (min m x) (min m x) (List.mem_cons_self _ _)) (min_le_right m x)
      · exact ih (min m b) x (List.mem_cons_of_mem _ h')

theorem foldl_max_mem (ms : List Rat) :
    ∀ (m : Rat), ms.foldl max m ∈ m :: ms := by
  induction ms with
  | nil => intro m; exact List.mem_singleton.mpr rfl
  | cons b bs ih =>
    intro m
    rw [List.foldl_cons]
    rcases List.mem_cons.mp (ih (max m b)) with h | h
    · rcases max_choice m b with hm | hm
      · rw [h, hm]; exact List.mem_cons_self _ _
      · rw [h, hm]; exact List.mem_cons_of_mem _ (List.mem_cons_self _ _)
    · exact List.mem_cons_of_mem _ (List.mem_cons_of_mem _ h)

theorem foldl_min_mem (ms : List Rat) :
    ∀ (m : Rat), ms.foldl min m ∈ m :: ms := by
  induction ms with
  | nil => intro m; exact List.mem_singleton.mpr rfl
  | cons b bs ih =>
    intro m
    rw [List.foldl_cons]
    rcases List.mem_cons.mp (ih (min m b)) with h | h
    · rcases min_choice m b with hm | hm
      · rw [h, hm]; exact List.mem_cons_self _ _
      · rw [h, hm]; exact List.mem_cons_of_mem _ (List.mem_cons_self _ _)
    · exact List.mem_cons_of_mem _ (List.mem_cons_of_mem _ h)

theorem massMax_mem {l : List Rat} (h : l ≠ []) : massMax l ∈ l := by
  match l with
  | [] => exact absurd rfl h
  | m :: ms => exact foldl_max_mem ms m

theorem massMin_mem {l : List Rat} (h : l ≠ []) : massMin l ∈ l := by
  match l with
  | [] => exact absurd rfl h
  | m :: ms => exact foldl_min_mem ms m

theorem le_massMax {l : List Rat} {x : Rat} (hx : x ∈ l) : x ≤ massMax l := by
  match l with
  | m :: ms => exact le_foldl_max ms m x hx

theorem massMin_le {l : List Rat} {x : Rat} (hx : x ∈ l) : massMin l ≤ x := by
  match l with
  | m :: ms => exact foldl_min_le ms m x hx

theorem mul_length_le_sum (a : Rat) :
    ∀ (l : List Rat), (∀ x ∈ l, a ≤ x) → a * (l.length : Rat) ≤ l.sum := by
  intro l
  induction l with
  | nil => intro _; simp
  | cons b bs ih =>
    intro h
    rw [List.sum_cons, List.length_cons]
    push_cast
    rw [mul_add, mul_one]
    have hb := h b (List.mem_cons_self _ _)
    have hbs := ih (fun x hx => h x (List.mem_cons_of_mem _ hx))
    linarith

theorem sum_le_mul_length (a : Rat) :
    ∀ (l : List Rat), (∀ x ∈ l, x ≤ a) → l.sum ≤ a * (l.length : Rat) := by
  intro l
  induction l with
  | nil => intro _; simp
  | cons b bs ih =>
    intro h
    rw [List.sum_cons, List.length_cons]
    push_cast
    rw [mul_add, mul_one]
    have hb := h b (List.mem_cons_self _ _)
    have hbs := ih (fun x hx => h x (List.mem_cons_of_mem _ hx))
    linarith

theorem massMin_le_mean {l : List Rat} (h : l ≠ []) :
    massMin l ≤ l.sum / (l.length : Rat) := by
  have hlen : (0 : Rat) < (l.length : Rat) := by
    exact_mod_cast List.length_pos.mpr h
  rw [le_div_iff₀ hlen]
  exact mul_length_le_sum _ l (fun x hx => massMin_le hx)

theorem mean_le_massMax {l : List Rat} (h : l ≠ []) :
    l.sum / (l.length : Rat) ≤ massMax l := by
  have hlen : (0 : Rat) < (l.length : Rat) := by
    exact_mod_cast List.length_pos.mpr h
  rw [div_le_iff₀ hlen]
  exact sum_le_mul_length _ l (fun x hx => le_massMax hx)

/-- C1, counterexample: on a table whose only row is complete except for a
missing year, the code's `dropna()` drops the row — and the class lookup
fails — even though under the spec's drop-missing pass (which keeps a row
missing only its year) class `"L6"` has exactly one row. -/
theorem dropna_drops_missing_year_row :
    sortClassAndFindValues [rowNoYear] "L6" = none
      ∧ specClassRows [rowNoYear] "L6" = [rowNoYear] :=
  ⟨by decide, by norm_num [specClassRows, specKeepRow, rowNoYear, List.filter]⟩

/-- C1, amended: `sortClassAndFindValues` computes per-class count, mean
mass, max mass and min mass over the rows that survive `dropna()`, i.e.
excluding every row with any missing field — including a missing year —
grouped by classification: whenever it succeeds, its `count` is the number
of surviving rows of the requested class, its mean times the count is the
sum of their masses, and its max (resp. min) is a mass of such a row
bounding all of their masses from above (resp. below). -/
theorem sortClassAndFindValues_class_stats (T : MeteoriteTable) (c : String)
    (s : ClassSummary) (h : sortClassAndFindValues T c = some s) :
    s.count = (classRows T c).length
      ∧ (∀ r, r ∈ classRows T c
          ↔ r ∈ T ∧ keepRow r = true ∧ r.recclass = some c)
      ∧ s.meanweightclass * (s.count : Rat)
          = ((classRows T c).filterMap (fun r => r.mass)).sum
      ∧ s.maxweight ∈ (classRows T c).filterMap (fun r => r.mass)
      ∧ (∀ m ∈ (classRows T c).filterMap (fun r => r.mass), m ≤ s.maxweight)
      ∧ s.minweight ∈ (classRows T c).filterMap (fun r => r.mass)
      ∧ (∀ m ∈ (classRows T c).filterMap (fun r => r.mass),
          s.minweight ≤ m) := by
  obtain ⟨hE, hs⟩ := sortClassAndFindValues_some_eq h
  have hne := classMasses_ne_nil hE
  have hcnt : s.count = (classRows T c).length := by
    rw [hs]
    exact classNames_length
  have hlenpos : (0 : Rat)
      < (((classRows T c).filterMap (fun r => r.mass)).length : Rat) := by
    exact_mod_cast List.length_pos.mpr hne
  refine ⟨hcnt, fun r => mem_classRows, ?_, ?_, ?_, ?_, ?_⟩
  · rw [hs]
    show ((classRows T c).filterMap (fun r => r.mass)).sum
        / (((classRows T c).filterMap (fun r => r.mass)).length : Rat)
        * ((((classRows T c).filterMap (fun r => r.name)).length : Nat) : Rat)
        = _
    rw [classNames_length, ← classMasses_length]
    exact div_mul_cancel₀ _ (ne_of_gt hlenpos)
  · rw [hs]
    exact massMax_mem hne
  · intro m hm
    rw [hs]
    exact le_massMax hm
  · rw [hs]
    exact massMin_mem hne
  · intro m hm
    rw [hs]
    exact massMin_le hm

/-- C1, witness: the amended statement applied to the scenario table at
class `"L6"`, where the returned summary has count 1 and
mean = max = min = 107000. -/
theorem sortClassAndFindValues_class_stats_witness :
    scenarioSummaryL6.count = (classRows scenarioT "L6").length
      ∧ scenarioSummaryL6.meanweightclass * (scenarioSummaryL6.count : Rat)
          = ((classRows scenarioT "L6").filterMap (fun r => r.mass)).sum
      ∧ scenarioSummaryL6.maxweight
          ∈ (classRows scenarioT "L6").filterMap (fun r => r.mass) := by
  have h : sortClassAndFindValues scenarioT "L6" = some scenarioSummaryL6 := by
    norm_num [sortClassAndFindValues, classRows, dropna, keepRow, colMean,
      massMax, massMin, scenarioT, rowAbee, rowOurique, scenarioSummaryL6,
      List.filter, List.filterMap]
  have H := sortClassAndFindValues_class_stats scenarioT "L6"
    scenarioSummaryL6 h
  exact ⟨H.1, H.2.2.1, H.2.2.2.1⟩

/-- C5: `sortClassAndFindValues` fails (the `.loc[recclass]` lookup raises,
modelled as `none`) if and only if the requested classification has zero
rows remaining after the `dropna()` drop-missing filter. -/
theorem sortClassAndFindValues_error_iff (T : MeteoriteTable) (c : String) :
    sortClassAndFindValues T c = none ↔ classRows T c = [] := by
  by_cases hE : (classRows T c).isEmpty = true
  · have hnone : sortClassAndFindValues T c = none := by
      rw [sortClassAndFindValues]
      simp only [hE, if_true]
    exact iff_of_true hnone (List.isEmpty_iff.mp hE)
  · have hsome : sortClassAndFindValues T c ≠ none := by
      rw [sortClassAndFindValues]
      simp only [hE, if_false]
      exact Option.some_ne_none _
    exact iff_of_false hsome (fun he => hE (List.isEmpty_iff.mpr he))

/-- C6: the overall mean mass, latitude and longitude returned by
`sortClassAndFindValues` are the per-column means of the unfiltered full
table (missing cells excluded individually, not row-wise) and do not depend
on the requested classification. -/
theorem sortClassAndFindValues_overall_means (T : MeteoriteTable)
    (c c2 : String) (s s2 : ClassSummary)
    (h : sortClassAndFindValues T c = some s)
    (h2 : sortClassAndFindValues T c2 = some s2) :
    s.aveweight = colMean (T.filterMap (fun r => r.mass))
      ∧ s.avelat = colMean (T.filterMap (fun r => r.reclat))
      ∧ s.avelong = colMean (T.filterMap (fun r => r.reclong))
      ∧ s2.aveweight = s.aveweight ∧ s2.avelat = s.avelat
      ∧ s2.avelong = s.avelong := by
  obtain ⟨_, hs⟩ := sortClassAndFindValues_some_eq h
  obtain ⟨_, hs2⟩ := sortClassAndFindValues_some_eq h2
  rw [hs, hs2]
  exact ⟨rfl, rfl, rfl, rfl, rfl, rfl⟩

/-- C6, witness: on a table holding one complete row each of classes `"L6"`
and `"H5"`, both summaries carry the same overall means, namely the
per-column means of the full table. -/
theorem sortClassAndFindValues_overall_means_witness :
    twoClassL6.aveweight = colMean (twoClassT.filterMap (fun r => r.mass))
      ∧ twoClassL6.avelat = colMean (twoClassT.filterMap (fun r => r.reclat))
      ∧ twoClassL6.avelong = colMean (twoClassT.filterMap (fun r => r.reclong))
      ∧ twoClassH5.aveweight = twoClassL6.aveweight
      ∧ twoClassH5.avelat = twoClassL6.avelat
      ∧ twoClassH5.avelong = twoClassL6.avelong := by
  have h1 : sortClassAndFindValues twoClassT "L6" = some twoClassL6 := by
    norm_num [sortClassAndFindValues, classRows, dropna, keepRow, colMean,
      massMax, massMin, twoClassT, rowAbee, rowBruno, twoClassL6,
      List.filter, List.filterMap]
  have h2 : sortClassAndFindValues twoClassT "H5" = some twoClassH5 := by
    have hg : classRows twoClassT "H5" = [rowBruno] := rfl
    rw [sortClassAndFindValues, hg]
    norm_num [colMean, massMax, massMin, twoClassT, rowAbee, rowBruno,
      twoClassH5, List.filterMap]
  exact sortClassAndFindValues_overall_means twoClassT "L6" "H5"
    twoClassL6 twoClassH5 h1 h2

/-- C8: whenever `sortClassAndFindValues` succeeds (the requested class has
at least one qualifying row), the per-class minimum mass is at most the
per-class mean mass, which is at most the per-class maximum mass. -/
theorem sortClassAndFindValues_min_mean_max (T : MeteoriteTable)
    (c : String) (s : ClassSummary)
    (h : sortClassAndFindValues T c = some s) :
    s.minweight ≤ s.meanweightclass
      ∧ s.meanweightclass ≤ s.maxweight := by
  obtain ⟨hE, hs⟩ := sortClassAndFindValues_some_eq h
  have hne := classMasses_ne_nil hE
  rw [hs]
  exact ⟨massMin_le_mean hne, mean_le_massMax hne⟩

/-- C8, witness: the bound applied to the scenario table at class `"L6"`. -/
theorem sortClassAndFindValues_min_mean_max_witness :
    scenarioSummaryL6.minweight ≤ scenarioSummaryL6.meanweightclass
      ∧ scenarioSummaryL6.meanweightclass ≤ scenarioSummaryL6.maxweight := by
  have h : sortClassAndFindValues scenarioT "L6" = some scenarioSummaryL6 := by
    norm_num [sortClassAndFindValues, classRows, dropna, keepRow, colMean,
      massMax, massMin, scenarioT, rowAbee, rowOurique, scenarioSummaryL6,
      List.filter, List.filterMap]
  exact sortClassAndFindValues_min_mean_max scenarioT "L6"
    scenarioSummaryL6 h

/-! ## Lemmas about the name index -/

theorem sortNameTable_fl {T : MeteoriteTable} {r : MeteoriteRow}
    (hr : r ∈ sortNameTable T) :
    r.firstLetter = firstLetterOf r.name := by
  obtain ⟨r0, _, rfl⟩ := List.mem_map.mp hr
  rfl

theorem sortNameTable_name {T : MeteoriteTable} {r : MeteoriteRow}
    (hr : r ∈ sortNameTable T) : ∃ r0 ∈ T, r0.name = r.name := by
  obtain ⟨r0, hr0, rfl⟩ := List.mem_map.mp hr
  exact ⟨r0, hr0, rfl⟩

theorem sortNameTable_filterMap_name (T : MeteoriteTable) :
    (sortNameTable T).filterMap (fun r => r.name)
      = T.filterMap (fun r => r.name) := by
  have hcomp : ((fun r : MeteoriteRow => r.name)
        ∘ (fun r : MeteoriteRow =>
            { r with firstLetter := firstLetterOf r.name }))
      = fun r : MeteoriteRow => r.name := funext (fun r => rfl)
  rw [sortNameTable, List.filterMap_map, hcomp]

theorem firstLetterOf_eq_some {name : Option String} {k : Char} :
    firstLetterOf name = some k
      ↔ ∃ s, name = some s
          ∧ ∃ c cs, s.data = c :: cs ∧ c.toUpper = k := by
  cases name with
  | none => simp [firstLetterOf]
  | some s =>
    show (match s.data with
      | [] => none
      | c :: _ => some c.toUpper) = some k ↔ _
    cases hd : s.data with
    | nil =>
      simp only [hd]
      constructor
      · intro h; cases h
      · rintro ⟨s2, hs2, c, cs, hdata, _⟩
        rw [Option.some_injective _ hs2] at hd
        rw [hd] at hdata
        cases hdata
    | cons c cs =>
      simp only [hd]
      constructor
      · intro h
        exact ⟨s, rfl, c, cs, hd, Option.some_injective _ h⟩
      · rintro ⟨s2, hs2, c2, cs2, hdata, hup⟩
        rw [Option.some_injective _ hs2] at hd
        rw [hd] at hdata
        cases hdata
        rw [hup]

theorem firstLetterOf_of_nonempty {s : String} (hs : s ≠ "") :
    ∃ c cs, s.data = c :: cs
      ∧ firstLetterOf (some s) = some c.toUpper := by
  cases hd : s.data with
  | nil => exact absurd (String.ext hd) hs
  | cons c cs =>
    refine ⟨c, cs, rfl, ?_⟩
    show (match s.data with
      | [] => none
      | c :: _ => some c.toUpper) = some c.toUpper
    rw [hd]

theorem firstLetterOf_none_name {name : Option String}
    (hne : ∀ s, name = some s → s ≠ "")
    (h : firstLetterOf name = none) : name = none := by
  cases hname : name with
  | none => rfl
  | some s =>
    obtain ⟨c, cs, _, hfl⟩ := firstLetterOf_of_nonempty (hne s hname)
    rw [hname, hfl] at h
    cases h

theorem flatMap_congr_mem {α β : Type} (ks : List α) (f g : α → List β)
    (h : ∀ k ∈ ks, f k = g k) : ks.flatMap f = ks.flatMap g := by
  induction ks with
  | nil => rfl
  | cons a ks ih =>
    rw [List.flatMap_cons, List.flatMap_cons, h a (List.mem_cons_self _ _),
      ih (fun x hx => h x (List.mem_cons_of_mem _ hx))]

theorem flatMap_insert_head {α β : Type} [DecidableEq α] (r : β) :
    ∀ (ks : List α) (k0 : α), ks.Nodup → k0 ∈ ks → ∀ (f : α → List β),
      (ks.flatMap (fun k => if k = k0 then r :: f k else f k)).Perm
        (r :: ks.flatMap f) := by
  intro ks
  induction ks with
  | nil => intro k0 _ h; cases h
  | cons a ks ih =>
    intro k0 hnd hk0 f
    rw [List.nodup_cons] at hnd
    rw [List.flatMap_cons, List.flatMap_cons]
    by_cases ha : a = k0
    · subst ha
      rw [if_pos rfl]
      have htail : ks.flatMap (fun k => if k = a then r :: f k else f k)
          = ks.flatMap f :=
        flatMap_congr_mem ks _ f (fun k hk => by
          rw [if_neg (fun he => hnd.1 (by rw [← he]; exact hk))])
      rw [htail, List.cons_append]
    · rw [if_neg ha]
      have hk0t : k0 ∈ ks := by
        rcases List.mem_cons.mp hk0 with h | h
        · exact absurd h.symm ha
        · exact h
      refine List.Perm.trans
        (List.Perm.append_left (f a) (ih k0 hnd.2 hk0t f)) ?_
      exact List.perm_middle

theorem flatMap_const_nil {α β : Type} :
    ∀ (ks : List α), (ks.flatMap (fun _ => ([] : List β))) = [] := by
  intro ks
  induction ks with
  | nil => rfl
  | cons a ks ih => rw [List.flatMap_cons, ih]; rfl

theorem groups_flatten_perm (ks : List Char) (hnd : ks.Nodup) :
    ∀ (l : MeteoriteTable),
      (∀ r ∈ l, ∀ k, r.firstLetter = some k → k ∈ ks) →
      (ks.flatMap
          (fun k => l.filter (fun r => r.firstLetter = some k))).Perm
        (l.filter (fun r => r.firstLetter.isSome)) := by
  intro l
  induction l with
  | nil =>
    intro _
    rw [show (ks.flatMap (fun k => ([] : MeteoriteTable).filter
        (fun r => r.firstLetter = some k))) = ks.flatMap (fun _ => []) from
      rfl]
    rw [flatMap_const_nil]
    exact List.Perm.refl _
  | cons r t iht =>
    intro hcov
    have hcovt : ∀ r2 ∈ t, ∀ k, r2.firstLetter = some k → k ∈ ks :=
      fun r2 h2 k hk => hcov r2 (List.mem_cons_of_mem _ h2) k hk
    cases hfl : r.firstLetter with
    | none =>
      have h1 : (ks.flatMap (fun k =>
            (r :: t).filter (fun x => x.firstLetter = some k)))
          = ks.flatMap (fun k =>
              t.filter (fun x => x.firstLetter = some k)) :=
        flatMap_congr_mem _ _ _ (fun k _ => by
          rw [List.filter_cons, if_neg (by simp [hfl])])
      have h2 : (r :: t).filter (fun x => x.firstLetter.isSome)
          = t.filter (fun x => x.firstLetter.isSome) := by
        rw [List.filter_cons, if_neg (by simp [hfl])]
      rw [h1, h2]
      exact iht hcovt
    | some k0 =>
      have hk0 : k0 ∈ ks := hcov r (List.mem_cons_self _ _) k0 hfl
      have h1 : (ks.flatMap (fun k =>
            (r :: t).filter (fun x => x.firstLetter = some k)))
          = ks.flatMap (fun k => if k = k0
              then r :: t.filter (fun x => x.firstLetter = some k)
              else t.filter (fun x => x.firstLetter = some k)) :=
        flatMap_congr_mem _ _ _ (fun k _ => by
          by_cases hk : k = k0
          · subst hk
            rw [List.filter_cons, if_pos (by simp [hfl]), if_pos rfl]
          · rw [List.filter_cons, if_neg ?_, if_neg hk]
            simp only [hfl, decide_eq_true_eq, Option.some.injEq]
            exact fun he => hk he.symm)
      have h2 : (r :: t).filter (fun x => x.firstLetter.isSome)
          = r :: t.filter (fun x => x.firstLetter.isSome) := by
        rw [List.filter_cons, if_pos (by simp [hfl])]
      rw [h1, h2]
      refine List.Perm.trans (flatMap_insert_head r ks k0 hnd hk0 _) ?_
      exact List.Perm.cons r (iht hcovt)

theorem filterMap_flatMap_groups {α : Type} (f : MeteoriteRow → Option α)
    (g : Char → MeteoriteTable) :
    ∀ (ks : List Char),
      (ks.flatMap (fun k => (g k).filterMap f))
        = (ks.flatMap g).filterMap f := by
  intro ks
  induction ks with
  | nil => rfl
  | cons a ks ih =>
    rw [List.flatMap_cons, List.flatMap_cons, List.filterMap_append, ih]

theorem filter_isSome_filterMap_name :
    ∀ (l : MeteoriteTable),
      (∀ r ∈ l, r.firstLetter = none → r.name = none) →
      (l.filter
          (fun r => r.firstLetter.isSome)).filterMap (fun r => r.name)
        = l.filterMap (fun r => r.name) := by
  intro l
  induction l with
  | nil => intro _; rfl
  | cons r t ih =>
    intro h
    have ht := fun r2 h2 => h r2 (List.mem_cons_of_mem _ h2)
    cases hfl : r.firstLetter with
    | none =>
      have hname : r.name = none := h r (List.mem_cons_self _ _) hfl
      rw [List.filter_cons, if_neg (by simp [hfl]), ih ht,
        List.filterMap_cons, hname]
    | some k =>
      rw [List.filter_cons, if_pos (by simp [hfl]),
        List.filterMap_cons, List.filterMap_cons, ih ht]

theorem mem_letterKeys_iff {T : MeteoriteTable} {k : Char} :
    k ∈ letterKeys T ↔ ∃ r ∈ T, r.firstLetter = some k := by
  rw [letterKeys, (List.perm_insertionSort _ _).mem_iff, List.mem_dedup,
    List.mem_filterMap]

theorem letterKeys_nodup (T : MeteoriteTable) : (letterKeys T).Nodup :=
  ((List.perm_insertionSort _ _).nodup_iff).mpr (List.nodup_dedup _)

/-- C3: for a table whose non-missing names are nonempty strings (as the
CSV loader guarantees: empty cells become NaN, not `""`), the dictionary
returned by `sortName` is a partition of the non-missing names: no letter
key has an empty list, the letter keys are distinct, every name of a group
starts (after upper-casing) with its group's letter and is kept verbatim,
the concatenation of all groups is a permutation of the table's non-missing
names, and each group lists its names in the table's row order. -/
theorem sortName_partition (T : MeteoriteTable)
    (hT : ∀ r ∈ T, r.name ≠ some "") :
    (∀ p ∈ (sortName T).2, p.2 ≠ [])
      ∧ ((sortName T).2.map Prod.fst).Nodup
      ∧ (∀ p ∈ (sortName T).2, ∀ s ∈ p.2,
          ∃ c cs, s.data = c :: cs ∧ c.toUpper = p.1)
      ∧ ((sortName T).2.flatMap Prod.snd).Perm
          (T.filterMap (fun r => r.name))
      ∧ (∀ p ∈ (sortName T).2,
          p.2.Sublist (T.filterMap (fun r => r.name))) := by
  have hT2 : ∀ r ∈ sortNameTable T, r.name ≠ some "" := by
    intro r hr
    obtain ⟨r0, hr0, hname⟩ := sortNameTable_name hr
    rw [← hname]
    exact hT r0 hr0
  have hsnd : (sortName T).2
      = (letterKeys (sortNameTable T)).map (fun k =>
          (k, ((sortNameTable T).filter
            (fun r => r.firstLetter = some k)).filterMap
              (fun r => r.name))) := rfl
  refine ⟨?_, ?_, ?_, ?_, ?_⟩
  · intro p hp
    rw [hsnd] at hp
    obtain ⟨k, hk, rfl⟩ := List.mem_map.mp hp
    obtain ⟨r, hr, hfl⟩ := mem_letterKeys_iff.mp hk
    have hfl2 : firstLetterOf r.name = some k := by
      rw [← sortNameTable_fl hr]; exact hfl
    obtain ⟨s, hs, -⟩ := firstLetterOf_eq_some.mp hfl2
    have hmem : s ∈ ((sortNameTable T).filter
        (fun x => x.firstLetter = some k)).filterMap (fun x => x.name) :=
      List.mem_filterMap.mpr
        ⟨r, List.mem_filter.mpr ⟨hr, decide_eq_true hfl⟩, hs⟩
    exact List.ne_nil_of_mem hmem
  · rw [hsnd, List.map_map]
    have hid : (Prod.fst ∘ fun k : Char =>
        (k, ((sortNameTable T).filter
          (fun r => r.firstLetter = some k)).filterMap
            (fun r => r.name))) = id := funext (fun k => rfl)
    rw [hid, List.map_id]
    exact letterKeys_nodup _
  · intro p hp s hs
    rw [hsnd] at hp
    obtain ⟨k, hk, rfl⟩ := List.mem_map.mp hp
    obtain ⟨r, hr, hname⟩ := List.mem_filterMap.mp hs
    have hfl : r.firstLetter = some k :=
      of_decide_eq_true (List.mem_filter.mp hr).2
    have hfl2 : firstLetterOf r.name = some k := by
      rw [← sortNameTable_fl (List.mem_filter.mp hr).1]; exact hfl
    obtain ⟨s2, hs2, c, cs, hdata, hup⟩ := firstLetterOf_eq_some.mp hfl2
    rw [hname] at hs2
    rw [← Option.some_injective _ hs2] at hdata
    exact ⟨c, cs, hdata, hup⟩
  · have hcov : ∀ r ∈ sortNameTable T, ∀ k,
        r.firstLetter = some k → k ∈ letterKeys (sortNameTable T) :=
      fun r hr k hk => mem_letterKeys_iff.mpr ⟨r, hr, hk⟩
    have e1 : (sortName T).2.flatMap Prod.snd
        = (letterKeys (sortNameTable T)).flatMap (fun k =>
            ((sortNameTable T).filter
              (fun r => r.firstLetter = some k)).filterMap
                (fun r => r.name)) := by
      rw [hsnd, List.flatMap_map]
    rw [e1, filterMap_flatMap_groups]
    refine List.Perm.trans
      (List.Perm.filterMap _
        (groups_flatten_perm _ (letterKeys_nodup _) _ hcov)) ?_
    have hdrop : ∀ r ∈ sortNameTable T,
        r.firstLetter = none → r.name = none := by
      intro r hr hfl
      refine firstLetterOf_none_name ?_ (by
        rw [← sortNameTable_fl hr]; exact hfl)
      intro s hsname hse
      exact hT2 r hr (by rw [hsname, hse])
    rw [filter_isSome_filterMap_name _ hdrop, sortNameTable_filterMap_name]
  · intro p hp
    rw [hsnd] at hp
    obtain ⟨k, hk, rfl⟩ := List.mem_map.mp hp
    have hsub : ((sortNameTable T).filter
        (fun r => r.firstLetter = some k)).filterMap (fun r => r.name)
          |>.Sublist ((sortNameTable T).filterMap (fun r => r.name)) :=
      List.Sublist.filterMap _ (List.filter_sublist _)
    rw [sortNameTable_filterMap_name] at hsub
    exact hsub

/-- C3, witness: the partition applied to the scenario table (whose
non-missing names are nonempty), where the dictionary is exactly the
spec's `{"A": ["Abee"], "O": ["Ourique"]}`. -/
theorem sortName_partition_witness :
    (sortName scenarioT).2
        = [(Char.toUpper (Char.ofNat 97), ["Abee"]),
            (Char.toUpper (Char.ofNat 111), ["Ourique"])]
      ∧ ((∀ p ∈ (sortName scenarioT).2, p.2 ≠ [])
          ∧ ((sortName scenarioT).2.map Prod.fst).Nodup
          ∧ (∀ p ∈ (sortName scenarioT).2, ∀ s ∈ p.2,
              ∃ c cs, s.data = c :: cs ∧ c.toUpper = p.1)
          ∧ ((sortName scenarioT).2.flatMap Prod.snd).Perm
              (scenarioT.filterMap (fun r => r.name))
          ∧ (∀ p ∈ (sortName scenarioT).2,
              p.2.Sublist (scenarioT.filterMap (fun r => r.name)))) :=
  ⟨by decide, sortName_partition scenarioT (by decide)⟩

/-- C10: the letter keys of the dictionary returned by `sortName` are
enumerated in strictly ascending order (pandas `groupby` sorts its group
keys), even though no caller requests any key order. -/
theorem sortName_keys_sorted (T : MeteoriteTable) :
    List.Sorted (· < ·) ((sortName T).2.map Prod.fst) := by
  have hkeys : (sortName T).2.map Prod.fst
      = letterKeys (sortNameTable T) := by
    show ((letterKeys (sortNameTable T)).map _).map Prod.fst = _
    rw [List.map_map]
    have hid : (Prod.fst ∘ fun k : Char =>
        (k, ((sortNameTable T).filter
          (fun r => r.firstLetter = some k)).filterMap
            (fun r => r.name))) = id := funext (fun k => rfl)
    rw [hid, List.map_id]
  rw [hkeys, letterKeys]
  have hs := List.sorted_insertionSort (· ≤ ·)
    (((sortNameTable T).filterMap (fun r => r.firstLetter)).dedup)
  have hnd : (List.insertionSort (· ≤ ·)
      (((sortNameTable T).filterMap
        (fun r => r.firstLetter)).dedup)).Nodup :=
    ((List.perm_insertionSort _ _).nodup_iff).mpr (List.nodup_dedup _)
  exact (List.Pairwise.and hs hnd).imp
    (fun h => lt_of_le_of_ne h.1 h.2)

/-- C7, counterexample: `sortName` does not leave its input table
unchanged — it assigns the `firstLetter` column, so on the scenario table
the frame it returns differs from the frame it received. -/
theorem sortName_mutates_table :
    (sortName scenarioT).1.map (fun r => r.firstLetter)
        = [some (Char.toUpper (Char.ofNat 97)),
            some (Char.toUpper (Char.ofNat 111))]
      ∧ scenarioT.map (fun r => r.firstLetter) = [none, none]
      ∧ (sortName scenarioT).1 ≠ scenarioT := by
  refine ⟨by decide, by decide, fun h => ?_⟩
  have h1 := congrArg
    (List.map (fun r : MeteoriteRow => r.firstLetter)) h
  rw [show (sortName scenarioT).1.map (fun r => r.firstLetter)
        = [some (Char.toUpper (Char.ofNat 97)),
            some (Char.toUpper (Char.ofNat 111))] from by decide] at h1
  rw [show scenarioT.map (fun r => r.firstLetter) = [none, none]
        from by decide] at h1
  exact absurd h1 (by decide)

/-- C7, amended: `getMeteorsPerYear` and `sortClassAndFindValues` leave
the data frame unchanged and all aggregations are pure in their results,
but `sortName` mutates the frame by assigning its `firstLetter` column;
the mutation is idempotent: running `sortName` again on the frame it
produced returns the very same frame and dictionary. -/
theorem aggregation_frame_effects (T : MeteoriteTable) (years : List Int)
    (c : String) :
    (getMeteorsPerYearS T years).1 = T
      ∧ (sortClassAndFindValuesS T c).1 = T
      ∧ (sortName T).1 = sortNameTable T
      ∧ sortName (sortName T).1 = sortName T := by
  refine ⟨rfl, rfl, rfl, ?_⟩
  have hTT : sortNameTable (sortNameTable T) = sortNameTable T := by
    simp only [sortNameTable, List.map_map]
    have hcomp : ((fun r : MeteoriteRow =>
          { r with firstLetter := firstLetterOf r.name })
        ∘ (fun r : MeteoriteRow =>
            { r with firstLetter := firstLetterOf r.name }))
        = (fun r : MeteoriteRow =>
            { r with firstLetter := firstLetterOf r.name }) :=
      funext (fun r => rfl)
    rw [hcomp]
  show sortName (sortNameTable T) = sortName T
  simp only [sortName, hTT]
